import Mathlib

/-!
# Job-completion indexer: `IndexJobsByNamespace`

A shallow embedding of `src/functions.go` (package `indexer`) together with the
standard-library routines it calls (`path.Base`, `path.Dir`, `path.Join`,
`strings.Split`, `url.URL.String`, `json.Marshal`, `strconv.FormatInt`,
`time.Unix`), followed by theorems about the handler.

Go strings are modelled as lists of characters.  Every byte-level test made by
the embedded routines is against an ASCII byte, and in UTF-8 an ASCII byte never
occurs inside a multi-byte sequence, so on valid UTF-8 text the character view
and the byte view agree.  Where a routine works byte by byte on non-ASCII text
(percent-encoding) the UTF-8 bytes of the character are computed explicitly.
-/

set_option autoImplicit false

namespace Indexer

/-- A Go `string`, as the list of its characters. -/
abbrev Str := List Char

/-! ## `strings.Split` and package `path` -/

/-- Go `strings.Split(s, sep)` for a one-byte separator: the pieces between
consecutive separators; `n` separators give `n + 1` pieces, and the empty string
gives one empty piece. -/
def Split : Str → Char → List Str
  | [], _ => [[]]
  | c :: cs, sep =>
    if c = sep then [] :: Split cs sep
    else
      match Split cs sep with
      | [] => [[c]]
      | p :: ps => (c :: p) :: ps

/-- The loop of `path.Base` that strips trailing slashes. -/
def stripTrailingSlashes (p : Str) : Str :=
  (p.reverse.dropWhile (fun c => c == '/')).reverse

/-- The text after the last `'/'` of `p` (all of `p` when it has none):
`p[LastIndexByte(p, '/')+1:]`. -/
def afterLastSlash (p : Str) : Str :=
  (p.reverse.takeWhile (fun c => c != '/')).reverse

/-- The text up to and including the last `'/'` of `p` (empty when it has
none): `p[:LastIndexByte(p, '/')+1]`. -/
def uptoLastSlash (p : Str) : Str :=
  (p.reverse.dropWhile (fun c => c != '/')).reverse

/-- Go `path.Base`: the last element of the path, after removing trailing
slashes; `"."` for the empty path and `"/"` for a path of slashes only. -/
def Base (p : Str) : Str :=
  if p = [] then ['.']
  else
    let q := afterLastSlash (stripTrailingSlashes p)
    if q = [] then ['/'] else q

/-- The backtracking of `path.Clean` on a `..` element: starting from write
index `w` (already decremented once), move left while `w > dotdot` and the
byte at `w` is not a slash. -/
def backtrack (out : Str) (dotdot : Nat) : Nat → Nat
  | 0 => 0
  | w + 1 =>
    if dotdot < w + 1 ∧ out.get? (w + 1) ≠ some '/' then backtrack out dotdot w
    else w + 1

/-- The main loop of Go `path.Clean`.  `rest` is the unread input `path[r:]`,
`out` the bytes written so far (`out.length` is the write index `w`), `dotdot`
the index where `..` must stop.  Each iteration reads at least one byte, so
`rest.length` iterations always suffice; `fuel` bounds the iterations. -/
def cleanLoop (rooted : Bool) : Nat → Str → Str → Nat → Str
  | 0, _, out, _ => out
  | _ + 1, [], out, _ => out
  | fuel + 1, c :: rest, out, dotdot =>
    if c = '/' then
      -- empty path element
      cleanLoop rooted fuel rest out dotdot
    else if c = '.' ∧ (rest = [] ∨ rest.head? = some '/') then
      -- . element
      cleanLoop rooted fuel rest out dotdot
    else if c = '.' ∧ rest.head? = some '.' ∧
        (rest.tail = [] ∨ rest.tail.head? = some '/') then
      -- .. element: remove to last /
      if dotdot < out.length then
        cleanLoop rooted fuel rest.tail
          (out.take (backtrack out dotdot (out.length - 1))) dotdot
      else if rooted = false then
        let out1 := (if 0 < out.length then out ++ ['/'] else out) ++ ['.', '.']
        cleanLoop rooted fuel rest.tail out1 out1.length
      else
        cleanLoop rooted fuel rest.tail out dotdot
    else
      -- real path element: add slash if needed, then copy the element
      let out1 :=
        if (rooted = true ∧ out.length ≠ 1) ∨ (rooted = false ∧ out.length ≠ 0)
        then out ++ ['/'] else out
      cleanLoop rooted fuel ((c :: rest).dropWhile (fun d => d != '/'))
        (out1 ++ (c :: rest).takeWhile (fun d => d != '/')) dotdot

/-- Go `path.Clean`: the shortest path equivalent to `p` by purely lexical
processing. -/
def Clean (p : Str) : Str :=
  match p with
  | [] => ['.']
  | c :: rest =>
    let out :=
      if c = '/' then cleanLoop true p.length rest ['/'] 1
      else cleanLoop false p.length p [] 0
    if out = [] then ['.'] else out

/-- The loop of Go `path.Join` that builds the buffer: empty elements are
skipped while the buffer is empty, later ones are appended after a slash. -/
def joinBuf : Str → List Str → Str
  | buf, [] => buf
  | buf, e :: es =>
    if 0 < buf.length ∨ e ≠ [] then
      joinBuf ((if 0 < buf.length then buf ++ ['/'] else buf) ++ e) es
    else joinBuf buf es

/-- Go `path.Join`: joins the elements with slashes and cleans the result;
the empty string when every element is empty. -/
def Join (elem : List Str) : Str :=
  if (elem.map List.length).sum = 0 then []
  else Clean (joinBuf [] elem)

/-- Go `path.Dir`: all but the last element of the path, cleaned. -/
def Dir (p : Str) : Str :=
  Clean (uptoLastSlash p)

/-! ## `net/url`: rendering of the source link -/

/-- The UTF-8 bytes of a character, given its code point. -/
def utf8Bytes (n : Nat) : List Nat :=
  if n < 0x80 then [n]
  else if n < 0x800 then [0xC0 + n / 64, 0x80 + n % 64]
  else if n < 0x10000 then [0xE0 + n / 4096, 0x80 + n / 64 % 64, 0x80 + n % 64]
  else [0xF0 + n / 262144, 0x80 + n / 4096 % 64, 0x80 + n / 64 % 64, 0x80 + n % 64]

/-- The bytes of a string. -/
def bytes (s : Str) : List Nat :=
  s.flatMap (fun c => utf8Bytes c.toNat)

/-- The two escaping modes of `net/url` that `URL.String` uses for a URL with
only `Scheme`, `Host` and `Path` set. -/
inductive encoding where
  | encodePath
  | encodeHost
  deriving DecidableEq

/-- Membership of a byte in a set of ASCII characters given as a string. -/
def byteIn (b : Nat) (set : String) : Bool :=
  set.toList.any (fun c => c.toNat == b)

/-- Go `url.shouldEscape`, for the modes `encodePath` and `encodeHost`. -/
def shouldEscape (c : Nat) (mode : encoding) : Bool :=
  if ('a'.toNat ≤ c ∧ c ≤ 'z'.toNat) ∨ ('A'.toNat ≤ c ∧ c ≤ 'Z'.toNat) ∨
      ('0'.toNat ≤ c ∧ c ≤ '9'.toNat) then false
  else if mode = encoding.encodeHost ∧
      (byteIn c "!$&()*+,;=:[]<>" ∨ c = 39 ∨ c = 34) then false
  else if byteIn c "-_.~" then false
  else if byteIn c "$&+,/:;=?@" then
    match mode with
    | encoding.encodePath => c == '?'.toNat
    | encoding.encodeHost => true
  else true

/-- Upper-case hexadecimal digit (`upperhex[n]`). -/
def upperhex (n : Nat) : Char :=
  "0123456789ABCDEF".toList.getD n '0'

/-- Go `url.escape`: percent-encodes every byte that `shouldEscape` selects. -/
def escape (s : Str) (mode : encoding) : Str :=
  (bytes s).flatMap (fun b =>
    if shouldEscape b mode then ['%', upperhex (b / 16), upperhex (b % 16)]
    else [Char.ofNat b])

/-- Go `url.URL`, restricted to the fields the handler sets; the others keep
their zero value. -/
structure URL where
  Scheme : Str
  Host : Str
  Path : Str

/-- Go `(*URL).EscapedPath` when `RawPath` is empty. -/
def URL.EscapedPath (u : URL) : Str :=
  if u.Path = ['*'] then ['*'] else escape u.Path encoding.encodePath

/-- Go `(*URL).String` for a URL without `Opaque`, `User`, `RawQuery` and
`Fragment`: `scheme://host/path`, with host and path percent-encoded. -/
def URL.String (u : URL) : Str :=
  let buf0 : Str := if u.Scheme ≠ [] then u.Scheme ++ [':'] else []
  let buf1 : Str :=
    if u.Scheme ≠ [] ∨ u.Host ≠ [] then
      (if u.Host ≠ [] ∨ u.Path ≠ [] then buf0 ++ ['/', '/'] else buf0) ++
        (if u.Host ≠ [] then escape u.Host encoding.encodeHost else [])
    else buf0
  let path := u.EscapedPath
  let buf2 : Str :=
    if path ≠ [] ∧ path.head? ≠ some '/' ∧ u.Host ≠ [] then buf1 ++ ['/'] else buf1
  let buf3 : Str :=
    if buf2 = [] ∧ (path.takeWhile (fun c => c != '/')).contains ':' then ['.', '/']
    else buf2
  buf3 ++ path

/-! ## `strconv`, `time` and `encoding/json` -/

/-- Go `strconv.FormatInt(i, 10)`. -/
def FormatInt (i : Int) : Str :=
  if i < 0 then '-' :: Nat.toDigits 10 i.natAbs else Nat.toDigits 10 i.toNat

/-- Wrap-around of an integer into the range of Go `int64`. -/
def wrapInt64 (x : Int) : Int :=
  (x + 2 ^ 63) % 2 ^ 64 - 2 ^ 63

/-- Seconds from year 1 to the Unix epoch (`time.unixToInternal`). -/
def unixToInternal : Int :=
  (1969 * 365 + 1969 / 4 - 1969 / 100 + 1969 / 400) * 86400

/-- Go `time.Time` without a monotonic reading: `ext` holds the seconds since
year 1; the nanoseconds are zero. -/
structure Time where
  ext : Int
  deriving DecidableEq

/-- Go `time.Unix(sec, 0)`. -/
def time.Unix (sec : Int) : Time :=
  { ext := wrapInt64 (sec + unixToInternal) }

/-- Go `Time.Unix`: the `int64` seconds since the Unix epoch. -/
def Time.Unix (t : Time) : Int :=
  wrapInt64 (t.ext + -unixToInternal)

/-- Lower-case hexadecimal digit (`hex[n]` of `encoding/json`). -/
def hex (n : Nat) : Char :=
  "0123456789abcdef".toList.getD n '0'

/-- The table `htmlSafeSet` of `encoding/json`: the ASCII bytes a JSON string
holds unescaped, namely `0x20` to `0x7f` without `"`, `\`, `<`, `>`, `&`. -/
def htmlSafeSet (b : Nat) : Bool :=
  0x20 ≤ b ∧ b < 0x80 ∧ b ≠ 34 ∧ b ≠ 92 ∧ b ≠ 60 ∧ b ≠ 62 ∧ b ≠ 38

/-- One step of `appendString` of `encoding/json` (HTML escaping on), as of
Go 1.22; earlier releases write `\b` and `\f` as `\u0008` and `\u000c`. -/
def appendChar (c : Char) : Str :=
  let b := c.toNat
  if b < 0x80 then
    if htmlSafeSet b then [c]
    else if b = 92 ∨ b = 34 then [Char.ofNat 92, c]
    else if b = 8 then [Char.ofNat 92, 'b']
    else if b = 12 then [Char.ofNat 92, 'f']
    else if b = 10 then [Char.ofNat 92, 'n']
    else if b = 13 then [Char.ofNat 92, 'r']
    else if b = 9 then [Char.ofNat 92, 't']
    else [Char.ofNat 92, 'u', '0', '0', hex (b / 16), hex (b % 16)]
  else if b = 0x2028 ∨ b = 0x2029 then
    [Char.ofNat 92, 'u', '2', '0', '2', hex (b % 16)]
  else [c]

/-- The JSON encoding of a Go string (`appendString`). -/
def appendString (src : Str) : Str :=
  [Char.ofNat 34] ++ src.flatMap appendChar ++ [Char.ofNat 34]

/-! ## Data model of `functions.go` -/

/-- The payload of a GCS event (`GCSEvent`), restricted to its string fields;
the handler reads `Name` and `Bucket` only. -/
structure GCSEvent where
  Kind : Str := []
  ID : Str := []
  Name : Str
  Bucket : Str
  ContentType : Str := []
  Size : Str := []
  MD5Hash : Str := []
  MediaLink : Str := []

/-- The result of the job, stored as the index object (`JobResult`). -/
structure JobResult where
  State : Str
  Namespace : Str
  CompletedAt : Int
  Link : Str
  deriving DecidableEq

/-- Go `json.Marshal` on a `JobResult`: the four fields in declaration order
under their JSON names.  It cannot fail on this type, so the handler's
"could not serialize job result" return is never taken. -/
def Marshal (r : JobResult) : Str :=
  [Char.ofNat 123] ++ "\"state\":".toList ++ appendString r.State ++
  ",\"namespace\":".toList ++ appendString r.Namespace ++
  ",\"completed_at\":".toList ++ FormatInt r.CompletedAt ++
  ",\"link\":".toList ++ appendString r.Link ++ [Char.ofNat 125]

/-- Modelled from the spec: a value of the metadata mapping of a record, "a
small closed variant (string | other-JSON-value)"; a value that is not a
string is kept as its JSON text. -/
inductive Value where
  | string (s : Str)
  | other (json : Str)
  deriving DecidableEq

/-- Modelled from the spec: the type `prow.Metadata` of the metadata mapping
(package `prow` is imported by `functions.go`; its declaration is not under
`src/`): string keys to values, each key at most once. -/
abbrev Metadata := Str → Option Value

/-- Modelled from the spec: the method `Strings()` of `prow.Metadata`, the
string view of the mapping that the handler consults: the entries whose value
is a string. -/
def Metadata.Strings (m : Metadata) : Str → Option Str :=
  fun k =>
    match m k with
    | some (Value.string s) => some s
    | _ => none

/-- Modelled from the spec: the decoded job-completion record `prow.Finished`:
`timestamp` is an optional signed integer, `passed` an optional boolean, and
`metadata` a mapping of string keys to values. -/
structure Finished where
  Timestamp : Option Int
  Passed : Option Bool
  Metadata : Metadata

/-! ## The object store and the other collaborators -/

/-- An object of the store: its content and its string metadata
(`ObjectAttrs.Metadata`, a Go map, kept as the list of its entries in the
order of the source's map literal). -/
structure Object where
  Content : Str
  Metadata : List (Str × Str)
  deriving DecidableEq

/-- The object store: bucket name and object name to the object held there. -/
abbrev Store := Str → Str → Option Object

/-- Why a call to a collaborator failed. -/
inductive Cause where
  /-- A network, permission or integrity failure reported by the client. -/
  | transport
  /-- The object to read does not exist (`storage.ErrObjectNotExist`). -/
  | objectNotExist
  /-- The condition `DoesNotExist` of the write does not hold. -/
  | preconditionFailed
  /-- The content is not a JSON job-completion record. -/
  | malformed
  deriving DecidableEq

/-- The `error` values the handler returns. -/
inductive Error where
  /-- An error of a collaborator returned as it is (`return err`). -/
  | propagated (c : Cause)
  /-- The error `"failed to write %s to %s: %v"`. -/
  | failedToWrite (indexPath u : Str) (c : Cause)
  /-- The error `"failed to close %s to %s: %v"`. -/
  | failedToClose (indexPath u : Str) (c : Cause)
  deriving DecidableEq

/-- The behaviour of the collaborators during one invocation: which calls
fail, and the decoder `json.Unmarshal` into `prow.Finished`. -/
structure Env where
  /-- The failure of `storage.NewClient`, if any. -/
  newClient : Option Cause
  /-- The failure of `NewReader` on an existing object, if any. -/
  newReader : Option Cause
  /-- The failure of `ioutil.ReadAll`, if any: it strikes after the given
  number of bytes has been read (an integrity failure is detected after the
  last byte). -/
  readAll : Option (Nat × Cause)
  /-- The decoder `json.Unmarshal(data, &finished)`. -/
  Unmarshal : Str → Except Cause Finished
  /-- The failure of `w.Write`, if any. -/
  write : Option Cause
  /-- The failure of `w.Close` for a reason other than the precondition. -/
  close : Option Cause

/-- The requests the handler sends to the object store. -/
inductive Op where
  /-- A read of the object `name` of `bucket` was requested. -/
  | read (bucket name : Str)
  /-- A conditional write of `obj` to `name` of `bucket` was requested. -/
  | write (bucket name : Str) (obj : Object)
  deriving DecidableEq

/-- What one invocation leaves behind: the returned `error` (`none` is `nil`),
the object store, the requests sent to the store, and the line logged. -/
structure Outcome where
  err : Option Error
  store : Store
  ops : List Op
  log : Option Str

/-- The call `client.Bucket(b).Object(n).NewReader(ctx)`: fails when the
transport fails or the object does not exist, else gives the content to
read. -/
def NewReader (env : Env) (s : Store) (bucket name : Str) : Except Cause Str :=
  match env.newReader with
  | some c => Except.error c
  | none =>
    match s bucket name with
    | none => Except.error Cause.objectNotExist
    | some o => Except.ok o.Content

/-- The call `ioutil.ReadAll(r)`: the data read and the error.  On a failure
the data read before it is returned along with the error. -/
def ReadAll (env : Env) (content : Str) : Str × Option Cause :=
  match env.readAll with
  | none => (content, none)
  | some (n, c) => (content.take n, some c)

/-- The store after `obj` has been put at `name` of `bucket`. -/
def Store.put (s : Store) (bucket name : Str) (obj : Object) : Store :=
  fun b n => if b = bucket ∧ n = name then some obj else s b n

/-- The call `w.Close()` of a writer opened with the condition `DoesNotExist`:
the object is created only when the transport does not fail and no object is
at `name`; the store is left as it is otherwise. -/
def Close (env : Env) (s : Store) (bucket name : Str) (obj : Object) :
    Except Cause Store :=
  match env.close with
  | some c => Except.error c
  | none =>
    match s bucket name with
    | some _ => Except.error Cause.preconditionFailed
    | none => Except.ok (s.put bucket name obj)

/-! ## The handler -/

/-- The marker filename of the `switch base`. -/
def finishedJSON : Str := "finished.json".toList

/-- The `switch` that sets `state` from `finished.Passed`. -/
def stateOf (passed : Option Bool) : Str :=
  match passed with
  | none => "error".toList
  | some true => "success".toList
  | some false => "failed".toList

/-- The variable `namespace`: `"unknown"`, replaced by the entry
`"work-namespace"` of `finished.Metadata.Strings()` when there is one. -/
def namespaceOf (finished : Finished) : Str :=
  match Metadata.Strings finished.Metadata "work-namespace".toList with
  | some n => n
  | none => "unknown".toList

/-- The variable `build`: `parts[len(parts)-2]`. -/
def buildOf (parts : List Str) : Str :=
  parts.getD (parts.length - 2) []

/-- The variable `job`: `parts[len(parts)-3]`. -/
def jobOf (parts : List Str) : Str :=
  parts.getD (parts.length - 3) []

/-- The variable `u`: the `gs://` URL of the directory of the marker. -/
def linkOf (e : GCSEvent) : Str :=
  URL.String { Scheme := "gs".toList, Host := e.Bucket, Path := Dir e.Name }

/-- The variable `indexPath`:
`path.Join("index", "job-namespace", key, job, build)`. -/
def indexPathOf (key job build : Str) : Str :=
  Join ["index".toList, "job-namespace".toList, key, job, build]

/-- The `JobResult` that is serialised into the index object. -/
def jobResultOf (e : GCSEvent) (finished : Finished) (timestamp : Int) : JobResult :=
  { State := stateOf finished.Passed
    Namespace := namespaceOf finished
    CompletedAt := (time.Unix timestamp).Unix
    Link := linkOf e }

/-- The index object: the serialised `JobResult` with the metadata map
assigned to `w.ObjectAttrs.Metadata`. -/
def indexObjectOf (e : GCSEvent) (finished : Finished) (timestamp : Int) : Object :=
  { Content := Marshal (jobResultOf e finished timestamp)
    Metadata :=
      [("link".toList, linkOf e),
       ("state".toList, stateOf finished.Passed),
       ("namespace".toList, namespaceOf finished),
       ("completed".toList, FormatInt (time.Unix timestamp).Unix)] }

/-- The line of `log.Printf` after a successful write. -/
def logLine (u state bucket indexPath : Str) : Str :=
  "Indexed job ".toList ++ u ++ " with state ".toList ++ state ++
    " to gs://".toList ++ bucket ++ ['/'] ++ indexPath

/-- The handler `IndexJobsByNamespace`, run against the store `s` with the
collaborators behaving as `env` says. -/
def IndexJobsByNamespace (env : Env) (s : Store) (e : GCSEvent) : Outcome :=
  let base := Base e.Name
  if base = finishedJSON then
    let parts := Split e.Name '/'
    if parts.length < 4 then
      { err := none, store := s, ops := [], log := none }
    else
      match env.newClient with
      | some c => { err := some (Error.propagated c), store := s, ops := [], log := none }
      | none =>
        let rd := Op.read e.Bucket e.Name
        match NewReader env s e.Bucket e.Name with
        | Except.error c =>
          { err := some (Error.propagated c), store := s, ops := [rd], log := none }
        | Except.ok r =>
          -- `data, err := ioutil.ReadAll(r)`: this `err` is never tested
          let data := (ReadAll env r).1
          match env.Unmarshal data with
          | Except.error c =>
            { err := some (Error.propagated c), store := s, ops := [rd], log := none }
          | Except.ok finished =>
            match finished.Timestamp with
            | none => { err := none, store := s, ops := [rd], log := none }
            | some timestamp =>
              if timestamp = 0 then
                { err := none, store := s, ops := [rd], log := none }
              else
                let state := stateOf finished.Passed
                let build := buildOf parts
                let job := jobOf parts
                let key := namespaceOf finished
                let u := linkOf e
                let indexPath := indexPathOf key job build
                let obj := indexObjectOf e finished timestamp
                let wr := Op.write e.Bucket indexPath obj
                match env.write with
                | some c =>
                  -- the deferred `w.Close()` of a failed writer creates nothing
                  { err := some (Error.failedToWrite indexPath u c), store := s,
                    ops := [rd, wr], log := none }
                | none =>
                  match Close env s e.Bucket indexPath obj with
                  | Except.error c =>
                    { err := some (Error.failedToClose indexPath u c), store := s,
                      ops := [rd, wr], log := none }
                  | Except.ok s1 =>
                    { err := none, store := s1, ops := [rd, wr],
                      log := some (logLine u state e.Bucket indexPath) }
  else
    { err := none, store := s, ops := [], log := none }

/-! ## Stages of an invocation -/

/-- The invocation gets past the filter, the fetch, the decoding and the
finished check with the record `finished`, whose timestamp is `timestamp`. -/
structure Reaches (env : Env) (s : Store) (e : GCSEvent) (finished : Finished)
    (timestamp : Int) : Prop where
  base : Base e.Name = finishedJSON
  parts : 4 ≤ (Split e.Name '/').length
  client : env.newClient = none
  fetch : ∃ content, NewReader env s e.Bucket e.Name = Except.ok content ∧
    env.Unmarshal (ReadAll env content).1 = Except.ok finished
  stamp : finished.Timestamp = some timestamp
  nonzero : timestamp ≠ 0

/-- The write stage of the handler, from `// build index components` to the
end: what an invocation that reaches it does. -/
def writeStage (env : Env) (s : Store) (e : GCSEvent) (finished : Finished)
    (timestamp : Int) : Outcome :=
  let parts := Split e.Name '/'
  let u := linkOf e
  let indexPath := indexPathOf (namespaceOf finished) (jobOf parts) (buildOf parts)
  let obj := indexObjectOf e finished timestamp
  let rd := Op.read e.Bucket e.Name
  let wr := Op.write e.Bucket indexPath obj
  match env.write with
  | some c =>
    { err := some (Error.failedToWrite indexPath u c), store := s, ops := [rd, wr], log := none }
  | none =>
    match Close env s e.Bucket indexPath obj with
    | Except.error c =>
      { err := some (Error.failedToClose indexPath u c), store := s, ops := [rd, wr], log := none }
    | Except.ok s1 =>
      { err := none, store := s1, ops := [rd, wr],
        log := some (logLine u (stateOf finished.Passed) e.Bucket indexPath) }

/-- A string that JSON holds as it is between the quotes: every byte is in
`htmlSafeSet`. -/
def jsonPlain (s : Str) : Prop :=
  ∀ c ∈ s, htmlSafeSet c.toNat = true

instance (s : Str) : Decidable (jsonPlain s) := by
  unfold jsonPlain; infer_instance

/-- A plain path element: not empty, without a slash, and neither `.` nor
`..`. -/
def plainElem (s : Str) : Prop :=
  s ≠ [] ∧ '/' ∉ s ∧ s ≠ ['.'] ∧ s ≠ ['.', '.']

instance (s : Str) : Decidable (plainElem s) := by
  unfold plainElem; infer_instance

/-- The elements `es`, each behind a slash: `/e₁/e₂/…/eₙ`. -/
def slashed : List Str → Str
  | [] => []
  | e :: es => '/' :: (e ++ slashed es)

/-! ## Concrete inputs -/

/-- An environment without failures whose decoder reads `content` as
`finished` and rejects every other text. -/
def envOf (content : Str) (finished : Finished) : Env :=
  { newClient := none
    newReader := none
    readAll := none
    Unmarshal := fun data =>
      if data = content then Except.ok finished else Except.error Cause.malformed
    write := none
    close := none }

/-- The store whose bucket `b` holds `content` at `name`, and nothing else. -/
def storeOf (name content : Str) : Store :=
  fun bucket n =>
    if bucket = "b".toList ∧ n = name then some { Content := content, Metadata := [] }
    else none

/-- The metadata mapping whose only entry is `work-namespace` with the value
`v`. -/
def metadataOf (v : Value) : Metadata :=
  fun k => if k = "work-namespace".toList then some v else none

/-- The marker path of the end-to-end example. -/
def exName : Str := "logs/myjob/17/finished.json".toList

/-- The event of the end-to-end example. -/
def exEvent : GCSEvent := { Name := exName, Bucket := "b".toList }

/-- The content of the marker of the end-to-end example. -/
def exContent : Str :=
  "\x7b\"timestamp\": 1700000000, \"passed\": true, \"metadata\": \x7b\"work-namespace\": \"ns1\"\x7d\x7d".toList

/-- The record of the end-to-end example. -/
def exFinished : Finished :=
  { Timestamp := some 1700000000
    Passed := some true
    Metadata := metadataOf (Value.string "ns1".toList) }

/-- The index key of the end-to-end example. -/
def exKey : Str := "index/job-namespace/ns1/myjob/17".toList

/-- The index object of the end-to-end example. -/
def exObject : Object :=
  { Content :=
      "\x7b\"state\":\"success\",\"namespace\":\"ns1\",\"completed_at\":1700000000,\"link\":\"gs://b/logs/myjob/17\"\x7d".toList
    Metadata :=
      [("link".toList, "gs://b/logs/myjob/17".toList),
       ("state".toList, "success".toList),
       ("namespace".toList, "ns1".toList),
       ("completed".toList, "1700000000".toList)] }

/-- An index object written by an earlier invocation. -/
def oldObject : Object :=
  { Content := "earlier".toList, Metadata := [("state".toList, "failed".toList)] }

/-- The store of the end-to-end example with an object already at the index
key. -/
def indexedStore : Store :=
  (storeOf exName exContent).put "b".toList exKey oldObject

/-- A record whose `work-namespace` is the empty string. -/
def emptyNamespace : Finished :=
  { Timestamp := some 1700000000
    Passed := some true
    Metadata := metadataOf (Value.string []) }

/-- A record whose `work-namespace` is `..`. -/
def dotdotNamespace : Finished :=
  { Timestamp := some 1700000000
    Passed := some true
    Metadata := metadataOf (Value.string "..".toList) }

/-- A record without `work-namespace` and without `passed`. -/
def noNamespace : Finished :=
  { Timestamp := some 1700000000, Passed := none, Metadata := fun _ => none }

/-- A record with `work-namespace` set to `team-a`. -/
def teamA : Finished :=
  { Timestamp := some 1700000000
    Passed := some false
    Metadata := metadataOf (Value.string "team-a".toList) }

/-- A record whose `work-namespace` is the number 42, not a string. -/
def numberNamespace : Finished :=
  { Timestamp := some 1700000000
    Passed := some true
    Metadata := metadataOf (Value.other "42".toList) }

/-- A record without a timestamp. -/
def noTimestamp : Finished :=
  { Timestamp := none
    Passed := some true
    Metadata := metadataOf (Value.string "ns1".toList) }

/-- A record whose timestamp is zero. -/
def zeroTimestamp : Finished :=
  { Timestamp := some 0
    Passed := some false
    Metadata := metadataOf (Value.string "ns1".toList) }

/-- The environment of the end-to-end example, except that the read fails
with an integrity error once the last byte has been read. -/
def readFails : Env :=
  { envOf exContent exFinished with readAll := some (exContent.length, Cause.transport) }

/-- A marker path with a trailing slash. -/
def slashName : Str := "logs/myjob/17/finished.json/".toList

/-- The event for the marker path with a trailing slash. -/
def slashEvent : GCSEvent := { Name := slashName, Bucket := "b".toList }

/-- An event whose path has two segments only. -/
def shortEvent : GCSEvent := { Name := "logs/finished.json".toList, Bucket := "b".toList }

/-- An event for an object that is not a marker. -/
def startedEvent : GCSEvent :=
  { Name := "logs/myjob/17/started.json".toList, Bucket := "b".toList }

/-! ## Lemmas -/

set_option maxRecDepth 100000

/-- An invocation that reaches the write stage is the write stage. -/
theorem IndexJobsByNamespace_of_reaches {env : Env} {s : Store} {e : GCSEvent}
    {finished : Finished} {timestamp : Int} (h : Reaches env s e finished timestamp) :
    IndexJobsByNamespace env s e = writeStage env s e finished timestamp := by
  obtain ⟨content, hr, hu⟩ := h.fetch
  have hp : ¬ (Split e.Name '/').length < 4 := Nat.not_lt.mpr h.parts
  simp only [IndexJobsByNamespace, writeStage, h.base, if_true, hp, if_false, h.client, hr, hu,
    h.stamp, h.nonzero]

/-- The write stage when `w.Write` fails. -/
theorem writeStage_write_fails (env : Env) (s : Store) (e : GCSEvent) (finished : Finished)
    (timestamp : Int) (c : Cause) (hw : env.write = some c) :
    writeStage env s e finished timestamp =
      { err := some (Error.failedToWrite
          (indexPathOf (namespaceOf finished) (jobOf (Split e.Name '/'))
            (buildOf (Split e.Name '/'))) (linkOf e) c)
        store := s
        ops := [Op.read e.Bucket e.Name,
          Op.write e.Bucket (indexPathOf (namespaceOf finished) (jobOf (Split e.Name '/'))
            (buildOf (Split e.Name '/'))) (indexObjectOf e finished timestamp)]
        log := none } := by
  simp only [writeStage, hw]

/-- The write stage when `w.Close` fails. -/
theorem writeStage_close_fails (env : Env) (s : Store) (e : GCSEvent) (finished : Finished)
    (timestamp : Int) (c : Cause) (hw : env.write = none)
    (hc : Close env s e.Bucket (indexPathOf (namespaceOf finished) (jobOf (Split e.Name '/'))
      (buildOf (Split e.Name '/'))) (indexObjectOf e finished timestamp) = Except.error c) :
    writeStage env s e finished timestamp =
      { err := some (Error.failedToClose
          (indexPathOf (namespaceOf finished) (jobOf (Split e.Name '/'))
            (buildOf (Split e.Name '/'))) (linkOf e) c)
        store := s
        ops := [Op.read e.Bucket e.Name,
          Op.write e.Bucket (indexPathOf (namespaceOf finished) (jobOf (Split e.Name '/'))
            (buildOf (Split e.Name '/'))) (indexObjectOf e finished timestamp)]
        log := none } := by
  simp only [writeStage, hw, hc]

/-- The write stage when the object is created. -/
theorem writeStage_created (env : Env) (s s1 : Store) (e : GCSEvent) (finished : Finished)
    (timestamp : Int) (hw : env.write = none)
    (hc : Close env s e.Bucket (indexPathOf (namespaceOf finished) (jobOf (Split e.Name '/'))
      (buildOf (Split e.Name '/'))) (indexObjectOf e finished timestamp) = Except.ok s1) :
    writeStage env s e finished timestamp =
      { err := none
        store := s1
        ops := [Op.read e.Bucket e.Name,
          Op.write e.Bucket (indexPathOf (namespaceOf finished) (jobOf (Split e.Name '/'))
            (buildOf (Split e.Name '/'))) (indexObjectOf e finished timestamp)]
        log := some (logLine (linkOf e) (stateOf finished.Passed) e.Bucket
          (indexPathOf (namespaceOf finished) (jobOf (Split e.Name '/'))
            (buildOf (Split e.Name '/')))) } := by
  simp only [writeStage, hw, hc]

/-- Whatever the write stage ends in, it has requested one read and one
conditional write of the index object at the index path. -/
theorem writeStage_ops (env : Env) (s : Store) (e : GCSEvent) (finished : Finished)
    (timestamp : Int) :
    (writeStage env s e finished timestamp).ops =
      [Op.read e.Bucket e.Name,
        Op.write e.Bucket (indexPathOf (namespaceOf finished) (jobOf (Split e.Name '/'))
          (buildOf (Split e.Name '/'))) (indexObjectOf e finished timestamp)] := by
  cases hw : env.write with
  | some c => rw [writeStage_write_fails env s e finished timestamp c hw]
  | none =>
    cases hc : Close env s e.Bucket (indexPathOf (namespaceOf finished)
        (jobOf (Split e.Name '/')) (buildOf (Split e.Name '/')))
        (indexObjectOf e finished timestamp) with
    | error c => rw [writeStage_close_fails env s e finished timestamp c hw hc]
    | ok s1 => rw [writeStage_created env s s1 e finished timestamp hw hc]

/-- The call `Close` fails, or no object was at the name and it puts the object
there. -/
theorem Close_cases (env : Env) (s : Store) (bucket name : Str) (obj : Object) :
    (∃ c, Close env s bucket name obj = Except.error c) ∨
    (s bucket name = none ∧ Close env s bucket name obj = Except.ok (s.put bucket name obj)) := by
  unfold Close
  cases env.close with
  | some c => exact Or.inl ⟨c, rfl⟩
  | none =>
    cases h : s bucket name with
    | some o => exact Or.inl ⟨Cause.preconditionFailed, rfl⟩
    | none => exact Or.inr ⟨rfl, rfl⟩

/-- The call `Close` fails when an object is already at the name. -/
theorem Close_of_exists (env : Env) (s : Store) (bucket name : Str) (obj o : Object)
    (h : s bucket name = some o) : ∃ c, Close env s bucket name obj = Except.error c := by
  unfold Close
  cases env.close with
  | some c => exact ⟨c, rfl⟩
  | none => exact ⟨Cause.preconditionFailed, by simp [h]⟩

/-- An invocation either reaches the write stage, or it stops before it:
then it leaves the store as it is and requests no write. -/
theorem reaches_or_stops (env : Env) (s : Store) (e : GCSEvent) :
    (∃ finished timestamp, Reaches env s e finished timestamp) ∨
    ((IndexJobsByNamespace env s e).store = s ∧
      ∀ bucket name obj, Op.write bucket name obj ∉ (IndexJobsByNamespace env s e).ops) := by
  by_cases hb : Base e.Name = finishedJSON
  swap
  · right; simp [IndexJobsByNamespace, hb]
  by_cases hp : (Split e.Name '/').length < 4
  · right; simp [IndexJobsByNamespace, hb, hp]
  cases hc : env.newClient with
  | some c => right; simp [IndexJobsByNamespace, hb, hp, hc]
  | none =>
    cases hr : NewReader env s e.Bucket e.Name with
    | error c => right; simp [IndexJobsByNamespace, hb, hp, hc, hr]
    | ok content =>
      cases hu : env.Unmarshal (ReadAll env content).1 with
      | error c => right; simp [IndexJobsByNamespace, hb, hp, hc, hr, hu]
      | ok finished =>
        cases ht : finished.Timestamp with
        | none => right; simp [IndexJobsByNamespace, hb, hp, hc, hr, hu, ht]
        | some timestamp =>
          by_cases h0 : timestamp = 0
          · right; simp [IndexJobsByNamespace, hb, hp, hc, hr, hu, ht, h0]
          · left
            exact ⟨finished, timestamp, hb, Nat.not_lt.mp hp, hc, ⟨content, hr, hu⟩, ht, h0⟩

/-- The store after an invocation is the store before it, or the store before
it with one object put at a name of the event's bucket that held none. -/
theorem store_after (env : Env) (s : Store) (e : GCSEvent) :
    (IndexJobsByNamespace env s e).store = s ∨
    ∃ name obj, s e.Bucket name = none ∧
      (IndexJobsByNamespace env s e).store = s.put e.Bucket name obj := by
  rcases reaches_or_stops env s e with ⟨finished, timestamp, h⟩ | ⟨h, _⟩
  · rw [IndexJobsByNamespace_of_reaches h]
    cases hw : env.write with
    | some c => left; rw [writeStage_write_fails env s e finished timestamp c hw]
    | none =>
      rcases Close_cases env s e.Bucket
        (indexPathOf (namespaceOf finished) (jobOf (Split e.Name '/')) (buildOf (Split e.Name '/')))
        (indexObjectOf e finished timestamp) with ⟨c, hc⟩ | ⟨hn, hok⟩
      · left; rw [writeStage_close_fails env s e finished timestamp c hw hc]
      · right; rw [writeStage_created env s _ e finished timestamp hw hok]
        exact ⟨_, _, hn, rfl⟩
  · exact Or.inl h

/-- A slashed sequence is empty or starts with a slash. -/
theorem slashed_head (es : List Str) : slashed es = [] ∨ (slashed es).head? = some '/' := by
  cases es with
  | nil => exact Or.inl rfl
  | cons e es => exact Or.inr rfl

/-- Copying an element without a slash stops where the element ends. -/
theorem takeWhile_elem (seg rest : Str) (hs : '/' ∉ seg)
    (hr : rest = [] ∨ rest.head? = some '/') :
    (seg ++ rest).takeWhile (fun d => d != '/') = seg ∧
    (seg ++ rest).dropWhile (fun d => d != '/') = rest := by
  induction seg with
  | nil =>
    rcases hr with rfl | hr
    · simp
    · cases rest with
      | nil => simp
      | cons r rs =>
        simp only [List.head?_cons, Option.some.injEq] at hr
        subst hr
        simp
  | cons c cs ih =>
    have hc : c ≠ '/' := fun h => hs (by simp [h])
    have hcs : '/' ∉ cs := fun h => hs (List.mem_cons_of_mem _ h)
    obtain ⟨h1, h2⟩ := ih hcs
    simp [List.takeWhile_cons, List.dropWhile_cons, hc, h1, h2]

/-- The loop of `Clean` stops at the end of the input. -/
theorem cleanLoop_nil (rooted : Bool) (fuel : Nat) (out : Str) (dotdot : Nat) :
    cleanLoop rooted fuel [] out dotdot = out := by
  cases fuel <;> rfl

/-- The loop of `Clean` skips a slash. -/
theorem cleanLoop_slash (rooted : Bool) (fuel : Nat) (rest out : Str) (dotdot : Nat) :
    cleanLoop rooted (fuel + 1) ('/' :: rest) out dotdot = cleanLoop rooted fuel rest out dotdot := by
  simp [cleanLoop]

/-- The loop of `Clean` copies a plain element, behind a slash when the output is
not empty. -/
theorem cleanLoop_elem (fuel : Nat) (seg rest out : Str) (dotdot : Nat) (hseg : plainElem seg)
    (hr : rest = [] ∨ rest.head? = some '/') :
    cleanLoop false (fuel + 1) (seg ++ rest) out dotdot =
      cleanLoop false fuel rest ((if out.length ≠ 0 then out ++ ['/'] else out) ++ seg) dotdot := by
  obtain ⟨hne, hslash, hdot, hdotdot⟩ := hseg
  obtain ⟨htake, hdrop⟩ := takeWhile_elem seg rest hslash hr
  cases seg with
  | nil => exact absurd rfl hne
  | cons c t =>
    have hc : c ≠ '/' := fun h => hslash (by simp [h])
    have ht : '/' ∉ t := fun h => hslash (List.mem_cons_of_mem _ h)
    have h2 : ¬ (c = '.' ∧ (t ++ rest = [] ∨ (t ++ rest).head? = some '/')) := by
      rintro ⟨rfl, h⟩
      cases t with
      | nil => exact hdot rfl
      | cons d t1 =>
        have hd : d ≠ '/' := fun h => ht (by simp [h])
        simp [hd] at h
    have h3 : ¬ (c = '.' ∧ (t ++ rest).head? = some '.' ∧
        ((t ++ rest).tail = [] ∨ (t ++ rest).tail.head? = some '/')) := by
      rintro ⟨rfl, h, h1⟩
      cases t with
      | nil =>
        rcases hr with rfl | hr
        · simp at h
        · simp [hr] at h
      | cons d t1 =>
        simp only [List.cons_append, List.head?_cons, Option.some.injEq] at h
        subst h
        cases t1 with
        | nil => exact hdotdot rfl
        | cons d1 t2 =>
          have hd : d1 ≠ '/' := fun h => ht (by simp [h])
          simp [hd] at h1
    rw [List.cons_append] at htake hdrop ⊢
    rw [cleanLoop]
    simp only [hc, if_false, h2, h3, htake, hdrop]
    simp

/-- The loop of `Clean` copies a slashed sequence of plain elements as it is. -/
theorem cleanLoop_slashed (es : List Str) (hes : ∀ e ∈ es, plainElem e) :
    ∀ (fuel : Nat) (out : Str) (dotdot : Nat), out ≠ [] → (slashed es).length ≤ fuel →
      cleanLoop false fuel (slashed es) out dotdot = out ++ slashed es := by
  induction es with
  | nil =>
    intro fuel out dotdot _ _
    simp [slashed, cleanLoop_nil]
  | cons e es ih =>
    intro fuel out dotdot hout hfuel
    have he : plainElem e := hes e (List.mem_cons_self _ _)
    have hlen : 0 < e.length := List.length_pos.mpr he.1
    simp only [slashed, List.length_cons, List.length_append] at hfuel
    obtain ⟨k, rfl⟩ : ∃ k, fuel = k + 1 + 1 := ⟨fuel - 2, by omega⟩
    have hout1 : out.length ≠ 0 := fun h => hout (List.length_eq_zero.mp h)
    rw [slashed, cleanLoop_slash, cleanLoop_elem k e (slashed es) out dotdot he (slashed_head es),
      ih (fun x hx => hes x (List.mem_cons_of_mem _ hx)) k _ dotdot
        (by intro h; exact he.1 (List.append_eq_nil.mp h).2) (by omega)]
    simp [hout1]

/-- Cleaning leaves a relative path of plain elements as it is. -/
theorem Clean_plain (e : Str) (es : List Str) (he : plainElem e) (hes : ∀ x ∈ es, plainElem x) :
    Clean (e ++ slashed es) = e ++ slashed es := by
  have hne := he.1
  have hslash := he.2.1
  cases e with
  | nil => exact absurd rfl hne
  | cons c t =>
    have hc : c ≠ '/' := fun h => hslash (by simp [h])
    have hstep := cleanLoop_elem (t ++ slashed es).length (c :: t) (slashed es) [] 0
      he (slashed_head es)
    have hrest := cleanLoop_slashed es hes (t ++ slashed es).length (c :: t) 0 (by simp)
      (by simp)
    simp only [List.cons_append, List.length_nil, ne_eq, not_true_eq_false, if_false,
      List.nil_append] at hstep
    simp only [Clean, List.cons_append, hc, if_false, List.length_cons, hstep, hrest]
    simp

/-- The iteration bound is adequate: once it covers the unread input, a larger
bound gives the same result, so the loop of `Clean` always runs to the end of
its input. -/
theorem cleanLoop_fuel (rooted : Bool) :
    ∀ (fuel : Nat) (rest out : Str) (dotdot : Nat), rest.length ≤ fuel →
      cleanLoop rooted (fuel + 1) rest out dotdot = cleanLoop rooted fuel rest out dotdot := by
  intro fuel
  induction fuel with
  | zero =>
    intro rest out dotdot h
    have : rest = [] := List.length_eq_zero.mp (Nat.le_zero.mp h)
    subst this
    rfl
  | succ k ih =>
    intro rest out dotdot h
    cases rest with
    | nil => rfl
    | cons c r =>
      have hr : r.length ≤ k := by simpa using h
      have ht : r.tail.length ≤ k := by
        have := List.length_tail r
        omega
      have hd : c ≠ '/' → ((c :: r).dropWhile (fun d => d != '/')).length ≤ k := by
        intro hc
        have h1 : (c :: r).dropWhile (fun d => d != '/') = r.dropWhile (fun d => d != '/') := by
          simp [List.dropWhile_cons, hc]
        rw [h1]
        exact le_trans (List.dropWhile_sublist _).length_le hr
      rw [cleanLoop, cleanLoop]
      split_ifs <;>
        first
        | exact ih _ _ _ hr
        | exact ih _ _ _ ht
        | exact ih _ _ _ (hd (by assumption))

/-- Converting the timestamp to a `time.Time` and back gives the timestamp
again, for every `int64` value. -/
theorem Unix_roundtrip (sec : Int) (hlo : -2 ^ 63 ≤ sec) (hhi : sec < 2 ^ 63) :
    (time.Unix sec).Unix = sec := by
  simp only [time.Unix, Time.Unix, wrapInt64, unixToInternal]
  norm_num at hlo hhi ⊢
  omega

/-- A split has at least one piece. -/
theorem Split_ne_nil (p : Str) (sep : Char) : Split p sep ≠ [] := by
  cases p with
  | nil => simp [Split]
  | cons c cs =>
    rw [Split]
    split_ifs
    · simp
    · split <;> simp

/-- A string without the separator is its only piece. -/
theorem Split_of_not_mem (p : Str) (sep : Char) (h : sep ∉ p) : Split p sep = [p] := by
  induction p with
  | nil => rfl
  | cons c cs ih =>
    have hc : c ≠ sep := fun hc => h (by simp [hc])
    have hcs : sep ∉ cs := fun hm => h (List.mem_cons_of_mem _ hm)
    rw [Split, if_neg hc, ih hcs]

/-- Splitting distributes over a separator: the pieces of `a ++ sep :: b` are
the pieces of `a` followed by the pieces of `b`. -/
theorem Split_append (a b : Str) (sep : Char) :
    Split (a ++ sep :: b) sep = Split a sep ++ Split b sep := by
  induction a with
  | nil => simp [Split]
  | cons c cs ih =>
    rw [List.cons_append, Split, Split, ih]
    split_ifs
    · rfl
    · cases hs : Split cs sep with
      | nil => exact absurd hs (Split_ne_nil cs sep)
      | cons q ps => rfl

/-- Indexing behind the first of two appended lists indexes the second. -/
theorem getD_append_length (l r : List Str) (n : Nat) (d : Str) :
    (l ++ r).getD (l.length + n) d = r.getD n d := by
  induction l with
  | nil => simp
  | cons x xs ih =>
    have : (x :: xs).length + n = (xs.length + n) + 1 := by simp; omega
    rw [this, List.cons_append, List.getD_cons_succ, ih]

/-- A path laid out as `…/JOB/BUILD/finished.json` gets past the filter, and
the handler takes `JOB` and `BUILD` from it. -/
theorem layout_passes_filter (pre job build : Str) (hjob : '/' ∉ job) (hbuild : '/' ∉ build) :
    Base (pre ++ '/' :: (job ++ '/' :: (build ++ '/' :: finishedJSON))) = finishedJSON ∧
    4 ≤ (Split (pre ++ '/' :: (job ++ '/' :: (build ++ '/' :: finishedJSON))) '/').length ∧
    (Split (pre ++ '/' :: (job ++ '/' :: (build ++ '/' :: finishedJSON))) '/').getLast? =
      some finishedJSON ∧
    jobOf (Split (pre ++ '/' :: (job ++ '/' :: (build ++ '/' :: finishedJSON))) '/') = job ∧
    buildOf (Split (pre ++ '/' :: (job ++ '/' :: (build ++ '/' :: finishedJSON))) '/') = build := by
  have hsplit : Split (pre ++ '/' :: (job ++ '/' :: (build ++ '/' :: finishedJSON))) '/' =
      Split pre '/' ++ [job, build, finishedJSON] := by
    rw [Split_append, Split_append, Split_append, Split_of_not_mem job '/' hjob,
      Split_of_not_mem build '/' hbuild, Split_of_not_mem finishedJSON '/' (by decide)]
    simp
  have hpos : 0 < (Split pre '/').length := List.length_pos.mpr (Split_ne_nil pre '/')
  refine ⟨?_, ?_, ?_, ?_, ?_⟩
  · simp [Base, stripTrailingSlashes, afterLastSlash, finishedJSON, List.takeWhile_cons,
      List.dropWhile_cons]
  · rw [hsplit]
    simp only [List.length_append, List.length_cons, List.length_nil]
    omega
  · rw [hsplit]
    simp
  · rw [hsplit, jobOf]
    have : (Split pre '/' ++ [job, build, finishedJSON]).length - 3 = (Split pre '/').length := by
      simp
    rw [this]
    exact getD_append_length _ _ 0 _
  · rw [hsplit, buildOf]
    have : (Split pre '/' ++ [job, build, finishedJSON]).length - 2 =
        (Split pre '/').length + 1 := by
      simp
    rw [this]
    exact getD_append_length _ _ 1 _

/-- The last piece of a split path is the text after the last slash. -/
theorem Split_getLast (p : Str) : (Split p '/').getLast? = some (afterLastSlash p) := by
  have hall : '/' ∉ afterLastSlash p := by
    intro hm
    have := List.mem_takeWhile_imp (List.mem_reverse.mp hm)
    simp at this
  have hdecomp : (p.reverse.dropWhile (fun c => c != '/')).reverse ++ afterLastSlash p = p := by
    unfold afterLastSlash
    rw [← List.reverse_append, List.takeWhile_append_dropWhile, List.reverse_reverse]
  cases hd : p.reverse.dropWhile (fun c => c != '/') with
  | nil =>
    rw [hd] at hdecomp
    simp only [List.reverse_nil, List.nil_append] at hdecomp
    have h1 : Split p '/' = [afterLastSlash p] := by
      conv_lhs => rw [← hdecomp]
      exact Split_of_not_mem _ _ hall
    rw [h1]
    rfl
  | cons x t =>
    have hx : x = '/' := by
      have := List.head?_dropWhile_not (fun c => c != '/') p.reverse
      rw [hd] at this
      simpa using this
    subst hx
    rw [hd] at hdecomp
    simp only [List.reverse_cons, List.append_assoc, List.singleton_append] at hdecomp
    have h1 : Split p '/' = Split t.reverse '/' ++ [afterLastSlash p] := by
      conv_lhs => rw [← hdecomp]
      rw [Split_append, Split_of_not_mem _ _ hall]
    rw [h1]
    simp

/-- On a path that does not end in a slash the filter is what it is meant to
be: the path gets past it only when its last segment is `finished.json`. -/
theorem marker_last_segment (p : Str) (hbase : Base p = finishedJSON)
    (hlast : p.getLast? ≠ some '/') :
    (Split p '/').getLast? = some finishedJSON := by
  have hstrip : stripTrailingSlashes p = p := by
    unfold stripTrailingSlashes
    have hh : p.reverse.head? ≠ some '/' := by rwa [List.head?_reverse]
    cases hr : p.reverse with
    | nil => simpa using hr.symm
    | cons x xs =>
      rw [hr] at hh
      have hx : x ≠ '/' := by simpa using hh
      rw [List.dropWhile_cons]
      simp only [beq_iff_eq, hx, if_false]
      rw [← hr, List.reverse_reverse]
  rw [Split_getLast]
  unfold Base at hbase
  rw [hstrip] at hbase
  by_cases hp : p = []
  · rw [if_pos hp] at hbase
    exact absurd hbase (by decide)
  · rw [if_neg hp] at hbase
    by_cases hq : afterLastSlash p = []
    · simp only [hq, if_true] at hbase
      exact absurd hbase (by decide)
    · simp only [hq, if_false] at hbase
      rw [hbase]

/-- The index object depends on the name and the bucket of the event only. -/
theorem indexObjectOf_congr (e : GCSEvent) (finished : Finished) (timestamp : Int) :
    indexObjectOf e finished timestamp =
      indexObjectOf { Name := e.Name, Bucket := e.Bucket } finished timestamp := rfl

/-- The decoder of `envOf` reads the content it was built for. -/
theorem envOf_Unmarshal (content : Str) (finished : Finished) :
    (envOf content finished).Unmarshal content = Except.ok finished := by
  simp [envOf]

/-- The index object of the end-to-end example, computed. -/
theorem exObject_eq : indexObjectOf exEvent exFinished 1700000000 = exObject := by decide

/-- The index key of the end-to-end example, computed. -/
theorem exKey_eq :
    indexPathOf (namespaceOf exFinished) (jobOf (Split exName '/')) (buildOf (Split exName '/')) =
      exKey := by decide

/-- An invocation without failures on a marker that decodes to a record with a
non-zero timestamp reaches the write stage. -/
theorem reaches_of_marker (env : Env) (s : Store) (e : GCSEvent) (content : Str)
    (finished : Finished) (timestamp : Int)
    (hbase : Base e.Name = finishedJSON) (hparts : 4 ≤ (Split e.Name '/').length)
    (hclient : env.newClient = none) (hreader : env.newReader = none)
    (hmarker : (s e.Bucket e.Name).map Object.Content = some content)
    (hdecode : env.Unmarshal (ReadAll env content).1 = Except.ok finished)
    (hstamp : finished.Timestamp = some timestamp) (hnonzero : timestamp ≠ 0) :
    Reaches env s e finished timestamp := by
  refine ⟨hbase, hparts, hclient, ⟨content, ?_, hdecode⟩, hstamp, hnonzero⟩
  cases hs : s e.Bucket e.Name with
  | none => rw [hs] at hmarker; cases hmarker
  | some o =>
    rw [hs] at hmarker
    simp only [Option.map_some', Option.some.injEq] at hmarker
    simp [NewReader, hreader, hs, hmarker]

/-- The event of the end-to-end example reaches the write stage for every record
with its timestamp. -/
theorem exReaches (finished : Finished) (hstamp : finished.Timestamp = some 1700000000)
    (s : Store) (hmarker : (s "b".toList exName).map Object.Content = some exContent) :
    Reaches (envOf exContent finished) s exEvent finished 1700000000 :=
  reaches_of_marker (envOf exContent finished) s exEvent exContent finished 1700000000
    (by decide) (by decide) rfl rfl hmarker (envOf_Unmarshal _ _) hstamp (by decide)

/-- For plain elements the index path is the plain concatenation. -/
theorem indexPathOf_plain (key job build : Str) (hkey : plainElem key) (hjob : plainElem job)
    (hbuild : plainElem build) :
    indexPathOf key job build =
      "index/job-namespace/".toList ++ key ++ "/".toList ++ job ++ "/".toList ++ build := by
  have hk : key ≠ [] := hkey.1
  have hj : job ≠ [] := hjob.1
  have hb : build ≠ [] := hbuild.1
  have hsum : ¬ (List.map List.length
      ["index".toList, "job-namespace".toList, key, job, build]).sum = 0 := by
    simp
  have hbuf : joinBuf [] ["index".toList, "job-namespace".toList, key, job, build] =
      "index".toList ++ slashed ["job-namespace".toList, key, job, build] := by
    simp [joinBuf, slashed]
  have hclean := Clean_plain "index".toList ["job-namespace".toList, key, job, build]
    (by decide) (by
      intro x hx
      simp only [List.mem_cons, List.mem_singleton, List.not_mem_nil, or_false] at hx
      rcases hx with rfl | rfl | rfl | rfl
      · decide
      · exact hkey
      · exact hjob
      · exact hbuild)
  rw [indexPathOf, Join, if_neg hsum, hbuf, hclean]
  simp [slashed]

/-- The reader of an existing object opens when the transport does not fail. -/
theorem NewReader_of_marker (env : Env) (s : Store) (bucket name : Str) (o : Object)
    (hreader : env.newReader = none) (hmarker : s bucket name = some o) :
    NewReader env s bucket name = Except.ok o.Content := by
  simp [NewReader, hreader, hmarker]

/-- The failures of the fetch that the handler does surface: a failure to
build the client, to open the reader or to decode what was read makes the
handler return an error and leave the store alone. -/
theorem fetch_failure_surfaces (env : Env) (s : Store) (e : GCSEvent)
    (hbase : Base e.Name = finishedJSON) (hparts : 4 ≤ (Split e.Name '/').length)
    (hfail : env.newClient ≠ none ∨
      (∃ c, NewReader env s e.Bucket e.Name = Except.error c) ∨
      (∃ content c, NewReader env s e.Bucket e.Name = Except.ok content ∧
        env.Unmarshal (ReadAll env content).1 = Except.error c)) :
    (IndexJobsByNamespace env s e).err ≠ none ∧
    (IndexJobsByNamespace env s e).store = s ∧
    ∀ bucket name obj, Op.write bucket name obj ∉ (IndexJobsByNamespace env s e).ops := by
  have hp : ¬ (Split e.Name '/').length < 4 := Nat.not_lt.mpr hparts
  cases hc : env.newClient with
  | some c => simp [IndexJobsByNamespace, hbase, hp, hc]
  | none =>
    rcases hfail with h | ⟨c, h⟩ | ⟨content, c, hr, hu⟩
    · exact absurd hc h
    · simp [IndexJobsByNamespace, hbase, hp, hc, h]
    · simp [IndexJobsByNamespace, hbase, hp, hc, hr, hu]

/-- The skip the handler performs: a path with fewer than 4 segments, or a path
that does not end in a slash and whose last segment is not `finished.json`,
makes the handler return `nil` without a request to the object store. -/
theorem skipped_event (env : Env) (s : Store) (e : GCSEvent)
    (h : (Split e.Name '/').length < 4 ∨
      ((Split e.Name '/').getLast? ≠ some finishedJSON ∧ e.Name.getLast? ≠ some '/')) :
    (IndexJobsByNamespace env s e).err = none ∧
    (IndexJobsByNamespace env s e).ops = [] ∧
    (IndexJobsByNamespace env s e).store = s := by
  rcases h with h | ⟨hseg, hlast⟩
  · by_cases hb : Base e.Name = finishedJSON <;> simp [IndexJobsByNamespace, hb, h]
  · have hb : Base e.Name ≠ finishedJSON := fun hb => hseg (marker_last_segment e.Name hb hlast)
    simp [IndexJobsByNamespace, hb]

/-- Two skipped events: a path of two segments, and a path whose last segment is
`started.json`. -/
theorem skipped_event_examples :
    ((IndexJobsByNamespace (envOf exContent exFinished) (storeOf exName exContent) shortEvent).err = none ∧
      (IndexJobsByNamespace (envOf exContent exFinished) (storeOf exName exContent) shortEvent).ops = [] ∧
      (IndexJobsByNamespace (envOf exContent exFinished) (storeOf exName exContent) shortEvent).store =
        storeOf exName exContent) ∧
    ((IndexJobsByNamespace (envOf exContent exFinished) (storeOf exName exContent) startedEvent).err = none ∧
      (IndexJobsByNamespace (envOf exContent exFinished) (storeOf exName exContent) startedEvent).ops = [] ∧
      (IndexJobsByNamespace (envOf exContent exFinished) (storeOf exName exContent) startedEvent).store =
        storeOf exName exContent) :=
  ⟨skipped_event (envOf exContent exFinished) (storeOf exName exContent) shortEvent
      (Or.inl (by decide)),
    skipped_event (envOf exContent exFinished) (storeOf exName exContent) startedEvent
      (Or.inr ⟨by decide, by decide⟩)⟩

/-- A byte of `htmlSafeSet` is written as it is. -/
theorem appendChar_plain (c : Char) (h : htmlSafeSet c.toNat = true) : appendChar c = [c] := by
  have h1 : c.toNat < 0x80 := by
    simp only [htmlSafeSet, decide_eq_true_eq] at h
    exact h.2.1
  simp [appendChar, h1, h]

/-- A string of bytes of `htmlSafeSet` is written as it is, between quotes. -/
theorem appendString_plain (s : Str) (h : jsonPlain s) :
    appendString s = [Char.ofNat 34] ++ s ++ [Char.ofNat 34] := by
  have hflat : s.flatMap appendChar = s := by
    induction s with
    | nil => rfl
    | cons c cs ih =>
      have hc : appendChar c = [c] := appendChar_plain c (h c (List.mem_cons_self _ _))
      have hcs : jsonPlain cs := fun x hx => h x (List.mem_cons_of_mem _ hx)
      simp [List.flatMap_cons, hc, ih hcs]
  rw [appendString, hflat]

/-- A string under `work-namespace` is the resolved namespace. -/
theorem namespaceOf_string (finished : Finished) (n : Str)
    (h : finished.Metadata "work-namespace".toList = some (Value.string n)) :
    namespaceOf finished = n := by
  simp only [namespaceOf, Metadata.Strings, h]

/-- Without the key `work-namespace` the resolved namespace is `unknown`. -/
theorem namespaceOf_absent (finished : Finished)
    (h : finished.Metadata "work-namespace".toList = none) :
    namespaceOf finished = "unknown".toList := by
  simp only [namespaceOf, Metadata.Strings, h]

/-- With a value under `work-namespace` that is not a string the resolved
namespace is `unknown`. -/
theorem namespaceOf_other (finished : Finished) (j : Str)
    (h : finished.Metadata "work-namespace".toList = some (Value.other j)) :
    namespaceOf finished = "unknown".toList := by
  simp only [namespaceOf, Metadata.Strings, h]


/-! ## The claims -/

/-- C1, counterexample: with an object already at the index key of the end-to-end
example, the condition `DoesNotExist` of the write fails and the handler
returns the error `failed to close …`, not `nil`. -/
theorem conflict_counterexample :
    indexedStore "b".toList exKey = some oldObject ∧
    (IndexJobsByNamespace (envOf exContent exFinished) indexedStore exEvent).err =
      some (Error.failedToClose exKey "gs://b/logs/myjob/17".toList Cause.preconditionFailed) ∧
    (IndexJobsByNamespace (envOf exContent exFinished) indexedStore exEvent).err ≠ none := by
  decide

/-- C1, amended: for every invocation that gets past the filter and the finished
check, if an object already exists at the computed index key, the handler
returns a non-nil error, `failed to write …` or `failed to close …`, and the
store, so also the existing object, is left as it was. -/
theorem conflict_is_error (env : Env) (s : Store) (e : GCSEvent) (finished : Finished)
    (timestamp : Int) (o : Object) (h : Reaches env s e finished timestamp)
    (hexists : s e.Bucket (indexPathOf (namespaceOf finished) (jobOf (Split e.Name '/'))
      (buildOf (Split e.Name '/'))) = some o) :
    (∃ c,
      (IndexJobsByNamespace env s e).err = some (Error.failedToWrite
        (indexPathOf (namespaceOf finished) (jobOf (Split e.Name '/'))
          (buildOf (Split e.Name '/'))) (linkOf e) c) ∨
      (IndexJobsByNamespace env s e).err = some (Error.failedToClose
        (indexPathOf (namespaceOf finished) (jobOf (Split e.Name '/'))
          (buildOf (Split e.Name '/'))) (linkOf e) c)) ∧
    (IndexJobsByNamespace env s e).store = s ∧
    (IndexJobsByNamespace env s e).store e.Bucket
      (indexPathOf (namespaceOf finished) (jobOf (Split e.Name '/'))
        (buildOf (Split e.Name '/'))) = some o := by
  rw [IndexJobsByNamespace_of_reaches h]
  cases hw : env.write with
  | some c =>
    rw [writeStage_write_fails env s e finished timestamp c hw]
    exact ⟨⟨c, Or.inl rfl⟩, rfl, hexists⟩
  | none =>
    obtain ⟨c, hc⟩ := Close_of_exists env s e.Bucket _ (indexObjectOf e finished timestamp) o hexists
    rw [writeStage_close_fails env s e finished timestamp c hw hc]
    exact ⟨⟨c, Or.inr rfl⟩, rfl, hexists⟩

/-- C1, witness: the amended claim at the end-to-end example with an object
already at its index key. -/
theorem conflict_is_error_witness :
    (∃ c,
      (IndexJobsByNamespace (envOf exContent exFinished) indexedStore exEvent).err =
        some (Error.failedToWrite
          (indexPathOf (namespaceOf exFinished) (jobOf (Split exEvent.Name '/'))
            (buildOf (Split exEvent.Name '/'))) (linkOf exEvent) c) ∨
      (IndexJobsByNamespace (envOf exContent exFinished) indexedStore exEvent).err =
        some (Error.failedToClose
          (indexPathOf (namespaceOf exFinished) (jobOf (Split exEvent.Name '/'))
            (buildOf (Split exEvent.Name '/'))) (linkOf exEvent) c)) ∧
    (IndexJobsByNamespace (envOf exContent exFinished) indexedStore exEvent).store =
      indexedStore ∧
    (IndexJobsByNamespace (envOf exContent exFinished) indexedStore exEvent).store exEvent.Bucket
      (indexPathOf (namespaceOf exFinished) (jobOf (Split exEvent.Name '/'))
        (buildOf (Split exEvent.Name '/'))) = some oldObject :=
  conflict_is_error (envOf exContent exFinished) indexedStore exEvent exFinished 1700000000
    oldObject (exReaches exFinished rfl indexedStore (by decide)) (by decide)

/-- C2, counterexample: for the empty namespace the handler writes to `index/job-
namespace/myjob/17`, and for the namespace `..` to `index/myjob/17`; neither
is the concatenation `index/job-namespace/<namespace>/myjob/17`. -/
theorem index_key_counterexample :
    (IndexJobsByNamespace (envOf exContent emptyNamespace) (storeOf exName exContent) exEvent).ops =
      [Op.read "b".toList exName,
       Op.write "b".toList "index/job-namespace/myjob/17".toList
        (indexObjectOf exEvent emptyNamespace 1700000000)] ∧
    namespaceOf emptyNamespace = [] ∧
    "index/job-namespace/myjob/17".toList ≠
      "index/job-namespace/".toList ++ namespaceOf emptyNamespace ++ "/".toList ++
        "myjob".toList ++ "/".toList ++ "17".toList ∧
    (IndexJobsByNamespace (envOf exContent dotdotNamespace) (storeOf exName exContent) exEvent).ops =
      [Op.read "b".toList exName,
       Op.write "b".toList "index/myjob/17".toList
        (indexObjectOf exEvent dotdotNamespace 1700000000)] ∧
    "index/myjob/17".toList ≠
      "index/job-namespace/".toList ++ namespaceOf dotdotNamespace ++ "/".toList ++
        "myjob".toList ++ "/".toList ++ "17".toList := by
  decide

/-- C2, amended: the index key is `path.Join` of `index`, `job-namespace`,
namespace, job and build, and whenever namespace, job and build are plain
elements (not empty, without a slash, neither `.` nor `..`) the handler writes
to exactly `index/job-namespace/` ++ namespace ++ `/` ++ job ++ `/` ++ build. -/
theorem index_key_plain (env : Env) (s : Store) (e : GCSEvent) (finished : Finished)
    (timestamp : Int) (h : Reaches env s e finished timestamp)
    (hkey : plainElem (namespaceOf finished))
    (hjob : plainElem (jobOf (Split e.Name '/')))
    (hbuild : plainElem (buildOf (Split e.Name '/'))) :
    indexPathOf (namespaceOf finished) (jobOf (Split e.Name '/')) (buildOf (Split e.Name '/')) =
      Join ["index".toList, "job-namespace".toList, namespaceOf finished,
        jobOf (Split e.Name '/'), buildOf (Split e.Name '/')] ∧
    (IndexJobsByNamespace env s e).ops =
      [Op.read e.Bucket e.Name,
       Op.write e.Bucket
        ("index/job-namespace/".toList ++ namespaceOf finished ++ "/".toList ++
          jobOf (Split e.Name '/') ++ "/".toList ++ buildOf (Split e.Name '/'))
        (indexObjectOf e finished timestamp)] := by
  refine ⟨rfl, ?_⟩
  rw [IndexJobsByNamespace_of_reaches h, ← indexPathOf_plain _ _ _ hkey hjob hbuild,
    writeStage_ops]

/-- C2, witness: the amended claim at the end-to-end example. -/
theorem index_key_plain_witness :
    indexPathOf (namespaceOf exFinished) (jobOf (Split exEvent.Name '/'))
        (buildOf (Split exEvent.Name '/')) =
      Join ["index".toList, "job-namespace".toList, namespaceOf exFinished,
        jobOf (Split exEvent.Name '/'), buildOf (Split exEvent.Name '/')] ∧
    (IndexJobsByNamespace (envOf exContent exFinished) (storeOf exName exContent) exEvent).ops =
      [Op.read exEvent.Bucket exEvent.Name,
       Op.write exEvent.Bucket
        ("index/job-namespace/".toList ++ namespaceOf exFinished ++ "/".toList ++
          jobOf (Split exEvent.Name '/') ++ "/".toList ++ buildOf (Split exEvent.Name '/'))
        (indexObjectOf exEvent exFinished 1700000000)] :=
  index_key_plain (envOf exContent exFinished) (storeOf exName exContent) exEvent exFinished
    1700000000 (exReaches exFinished rfl (storeOf exName exContent) (by decide))
    (by decide) (by decide) (by decide)

/-- C3: the state is a total function of the optional `passed` field: absent gives
`error`, true gives `success`, false gives `failed`; every record gets exactly
one of these three distinct states, and that state is the one put in the
payload and in the `state` metadata entry. -/
theorem stateOf_total :
    stateOf none = "error".toList ∧
    stateOf (some true) = "success".toList ∧
    stateOf (some false) = "failed".toList ∧
    (∀ finished : Finished,
      stateOf finished.Passed = "success".toList ∨
      stateOf finished.Passed = "failed".toList ∨
      stateOf finished.Passed = "error".toList) ∧
    ("success".toList ≠ "failed".toList ∧ "success".toList ≠ "error".toList ∧
      "failed".toList ≠ "error".toList) ∧
    (∀ (e : GCSEvent) (finished : Finished) (timestamp : Int),
      (jobResultOf e finished timestamp).State = stateOf finished.Passed ∧
      (indexObjectOf e finished timestamp).Metadata.lookup "state".toList =
        some (stateOf finished.Passed)) := by
  refine ⟨rfl, rfl, rfl, ?_, ⟨by decide, by decide, by decide⟩, ?_⟩
  · intro finished
    cases finished.Passed with
    | none => exact Or.inr (Or.inr rfl)
    | some b =>
      cases b
      · exact Or.inr (Or.inl rfl)
      · exact Or.inl rfl
  · intro e finished timestamp
    refine ⟨rfl, ?_⟩
    simp [indexObjectOf, List.lookup]

/-- C4: for every event, environment and store, every name that holds an object
before the handler runs holds the same object afterwards, and the store
changes at one name at most. -/
theorem write_once (env : Env) (s : Store) (e : GCSEvent) :
    (∀ bucket name o, s bucket name = some o →
      (IndexJobsByNamespace env s e).store bucket name = some o) ∧
    (∃ bucket0 name0, ∀ bucket name, ¬ (bucket = bucket0 ∧ name = name0) →
      (IndexJobsByNamespace env s e).store bucket name = s bucket name) := by
  rcases store_after env s e with h | ⟨name0, obj, hn, h⟩
  · rw [h]
    exact ⟨fun _ _ _ ho => ho, [], [], fun _ _ _ => rfl⟩
  · rw [h]
    refine ⟨?_, e.Bucket, name0, ?_⟩
    · intro bucket name o ho
      have : ¬ (bucket = e.Bucket ∧ name = name0) := by
        rintro ⟨rfl, rfl⟩
        rw [hn] at ho
        cases ho
      simp [Store.put, this, ho]
    · intro bucket name hne
      simp [Store.put, hne]

/-- C4, witness: the object already at the index key of the end-to-end example is
still there after the handler has run. -/
theorem write_once_witness :
    (IndexJobsByNamespace (envOf exContent exFinished) indexedStore exEvent).store
      "b".toList exKey = some oldObject :=
  (write_once (envOf exContent exFinished) indexedStore exEvent).1 "b".toList exKey oldObject
    (by decide)

/-- C5, the code at the failing input: `ioutil.ReadAll` returns the whole content
together with an error, the handler ignores that error, writes the index
object and returns `nil`. -/
theorem read_failure_not_surfaced :
    (ReadAll readFails exContent).2 = some Cause.transport ∧
    (IndexJobsByNamespace readFails (storeOf exName exContent) exEvent).err = none ∧
    (IndexJobsByNamespace readFails (storeOf exName exContent) exEvent).store "b".toList exKey =
      some exObject ∧
    (IndexJobsByNamespace readFails (storeOf exName exContent) exEvent).ops =
      [Op.read "b".toList exName, Op.write "b".toList exKey exObject] := by
  decide

/-- C6, the code at the failing input: the path `logs/myjob/17/finished.json/`
gets past the filter although its last segment is empty, and the handler takes
`17` as the job and `finished.json` as the build. -/
theorem trailing_slash_marker :
    Base slashName = finishedJSON ∧
    (Split slashName '/').length = 5 ∧
    (Split slashName '/').getLast? = some [] ∧
    jobOf (Split slashName '/') = "17".toList ∧
    buildOf (Split slashName '/') = finishedJSON ∧
    (IndexJobsByNamespace (envOf exContent exFinished) (storeOf slashName exContent) slashEvent).err =
      none ∧
    (IndexJobsByNamespace (envOf exContent exFinished) (storeOf slashName exContent) slashEvent).ops =
      [Op.read "b".toList slashName,
       Op.write "b".toList "index/job-namespace/ns1/17/finished.json".toList
        (indexObjectOf slashEvent exFinished 1700000000)] := by
  decide

/-- C7, the code at the failing input: the last segment of the path
`logs/myjob/17/finished.json/` is empty, so its filename is not the marker
filename, and the path has five segments; yet the handler reads the object,
requests the write and creates an index object. -/
theorem unmarked_path_indexed :
    (Split slashEvent.Name '/').getLast? = some [] ∧
    (Split slashEvent.Name '/').getLast? ≠ some finishedJSON ∧
    ¬ (Split slashEvent.Name '/').length < 4 ∧
    (IndexJobsByNamespace (envOf exContent exFinished) (storeOf slashName exContent) slashEvent).err =
      none ∧
    (IndexJobsByNamespace (envOf exContent exFinished) (storeOf slashName exContent) slashEvent).ops ≠
      [] ∧
    (IndexJobsByNamespace (envOf exContent exFinished) (storeOf slashName exContent) slashEvent).ops =
      [Op.read "b".toList slashName,
       Op.write "b".toList "index/job-namespace/ns1/17/finished.json".toList
        (indexObjectOf slashEvent exFinished 1700000000)] ∧
    storeOf slashName exContent "b".toList "index/job-namespace/ns1/17/finished.json".toList =
      none ∧
    (IndexJobsByNamespace (envOf exContent exFinished) (storeOf slashName exContent) slashEvent).store
        "b".toList "index/job-namespace/ns1/17/finished.json".toList =
      some (indexObjectOf slashEvent exFinished 1700000000) := by
  decide

/-- C8: for every event that gets past the filter (every path
`…/JOB/BUILD/finished.json` does, by `layout_passes_filter`) and whose content
is fetched and decodes to a record with `timestamp` absent or zero, the
handler returns `nil`, requests no write and leaves the store as it is,
whatever `passed` and `metadata` are. -/
theorem unfinished_record (env : Env) (s : Store) (e : GCSEvent) (content : Str)
    (finished : Finished)
    (hbase : Base e.Name = finishedJSON)
    (hparts : 4 ≤ (Split e.Name '/').length)
    (hclient : env.newClient = none)
    (hreader : NewReader env s e.Bucket e.Name = Except.ok content)
    (hdecode : env.Unmarshal (ReadAll env content).1 = Except.ok finished)
    (hstamp : finished.Timestamp = none ∨ finished.Timestamp = some 0) :
    (IndexJobsByNamespace env s e).err = none ∧
    (IndexJobsByNamespace env s e).store = s ∧
    ∀ bucket name obj, Op.write bucket name obj ∉ (IndexJobsByNamespace env s e).ops := by
  have hp : ¬ (Split e.Name '/').length < 4 := Nat.not_lt.mpr hparts
  rcases hstamp with h | h <;>
    simp [IndexJobsByNamespace, hbase, hp, hclient, hreader, hdecode, h]

/-- C8, witness: the end-to-end example with a record without timestamp, and with
a record whose timestamp is zero. -/
theorem unfinished_record_witness :
    ((IndexJobsByNamespace (envOf exContent noTimestamp) (storeOf exName exContent) exEvent).err = none ∧
      (IndexJobsByNamespace (envOf exContent noTimestamp) (storeOf exName exContent) exEvent).store =
        storeOf exName exContent ∧
      ∀ bucket name obj, Op.write bucket name obj ∉
        (IndexJobsByNamespace (envOf exContent noTimestamp) (storeOf exName exContent) exEvent).ops) ∧
    ((IndexJobsByNamespace (envOf exContent zeroTimestamp) (storeOf exName exContent) exEvent).err = none ∧
      (IndexJobsByNamespace (envOf exContent zeroTimestamp) (storeOf exName exContent) exEvent).store =
        storeOf exName exContent ∧
      ∀ bucket name obj, Op.write bucket name obj ∉
        (IndexJobsByNamespace (envOf exContent zeroTimestamp) (storeOf exName exContent) exEvent).ops) :=
  ⟨unfinished_record (envOf exContent noTimestamp) (storeOf exName exContent) exEvent exContent
      noTimestamp (by decide) (by decide) rfl
      (NewReader_of_marker _ _ _ _ { Content := exContent, Metadata := [] } rfl (by decide))
      (envOf_Unmarshal _ _) (Or.inl rfl),
    unfinished_record (envOf exContent zeroTimestamp) (storeOf exName exContent) exEvent exContent
      zeroTimestamp (by decide) (by decide) rfl
      (NewReader_of_marker _ _ _ _ { Content := exContent, Metadata := [] } rfl (by decide))
      (envOf_Unmarshal _ _) (Or.inr rfl)⟩

/-- C9: for an event with bucket `b` and name `logs/myjob/17/finished.json` whose
content decodes to the record with timestamp 1700000000, `passed` true and
`work-namespace` `ns1`, with no failure and no object yet at the key, the
handler returns `nil` and creates exactly the object `exObject` at `index/job-
namespace/ns1/myjob/17`: the JSON payload and the four metadata entries,
`completed` being `1700000000`. -/
theorem end_to_end (env : Env) (s : Store) (e : GCSEvent) (content : Str)
    (hname : e.Name = exName) (hbucket : e.Bucket = "b".toList)
    (hclient : env.newClient = none) (hreader : env.newReader = none)
    (hread : env.readAll = none) (hwrite : env.write = none) (hclose : env.close = none)
    (hmarker : (s e.Bucket e.Name).map Object.Content = some content)
    (hdecode : env.Unmarshal content = Except.ok exFinished)
    (habsent : s "b".toList exKey = none) :
    (IndexJobsByNamespace env s e).err = none ∧
    (IndexJobsByNamespace env s e).store = s.put "b".toList exKey exObject ∧
    (IndexJobsByNamespace env s e).ops =
      [Op.read "b".toList exName, Op.write "b".toList exKey exObject] := by
  have hreach : Reaches env s e exFinished 1700000000 :=
    reaches_of_marker env s e content exFinished 1700000000 (by rw [hname]; decide)
      (by rw [hname]; decide) hclient hreader hmarker (by simpa [ReadAll, hread] using hdecode)
      rfl (by decide)
  have hobj : indexObjectOf e exFinished 1700000000 = exObject := by
    rw [indexObjectOf_congr, hname, hbucket]; exact exObject_eq
  rw [IndexJobsByNamespace_of_reaches hreach]
  simp only [writeStage, hwrite, Close, hclose, hname, hbucket, exKey_eq, hobj, habsent]
  exact ⟨trivial, trivial, trivial⟩

/-- C9, witness: the end-to-end example in a store that holds the marker only. -/
theorem end_to_end_witness :
    (IndexJobsByNamespace (envOf exContent exFinished) (storeOf exName exContent) exEvent).err = none ∧
    (IndexJobsByNamespace (envOf exContent exFinished) (storeOf exName exContent) exEvent).store =
      (storeOf exName exContent).put "b".toList exKey exObject ∧
    (IndexJobsByNamespace (envOf exContent exFinished) (storeOf exName exContent) exEvent).ops =
      [Op.read "b".toList exName, Op.write "b".toList exKey exObject] :=
  end_to_end (envOf exContent exFinished) (storeOf exName exContent) exEvent exContent
    rfl rfl rfl rfl rfl rfl rfl (by decide) (envOf_Unmarshal _ _) (by decide)

/-- C10, counterexample: the metadata of the record has the key `work-namespace`
with the number 42 as its value; the resolved namespace is `unknown`, not that
value, and `unknown` is what goes into the index key and the `namespace`
metadata entry. -/
theorem namespace_counterexample :
    numberNamespace.Metadata "work-namespace".toList = some (Value.other "42".toList) ∧
    namespaceOf numberNamespace = "unknown".toList ∧
    namespaceOf numberNamespace ≠ "42".toList ∧
    (IndexJobsByNamespace (envOf exContent numberNamespace) (storeOf exName exContent) exEvent).ops =
      [Op.read "b".toList exName,
       Op.write "b".toList "index/job-namespace/unknown/myjob/17".toList
        (indexObjectOf exEvent numberNamespace 1700000000)] ∧
    (indexObjectOf exEvent numberNamespace 1700000000).Metadata.lookup "namespace".toList =
      some "unknown".toList := by
  decide

/-- C10, amended: when the metadata of the record has a string under the key
`work-namespace` the resolved namespace is that string verbatim; when the key
is absent, or its value is not a string, it is `unknown`. The resolved value
is the third element of the `path.Join` that gives the index key (the key is
the plain concatenation when namespace, job and build are plain elements), the
`namespace` field of the JSON payload (between quotes as it is when it needs
no escaping) and the `namespace` metadata entry of the object the handler
writes. -/
theorem namespace_resolution (env : Env) (s : Store) (e : GCSEvent) (finished : Finished)
    (timestamp : Int) (h : Reaches env s e finished timestamp) :
    (∀ n, finished.Metadata "work-namespace".toList = some (Value.string n) →
      namespaceOf finished = n) ∧
    (finished.Metadata "work-namespace".toList = none →
      namespaceOf finished = "unknown".toList) ∧
    (∀ j, finished.Metadata "work-namespace".toList = some (Value.other j) →
      namespaceOf finished = "unknown".toList) ∧
    ∃ key obj,
      (IndexJobsByNamespace env s e).ops = [Op.read e.Bucket e.Name, Op.write e.Bucket key obj] ∧
      key = Join ["index".toList, "job-namespace".toList, namespaceOf finished,
        jobOf (Split e.Name '/'), buildOf (Split e.Name '/')] ∧
      (plainElem (namespaceOf finished) → plainElem (jobOf (Split e.Name '/')) →
        plainElem (buildOf (Split e.Name '/')) →
        key = "index/job-namespace/".toList ++ namespaceOf finished ++ "/".toList ++
          jobOf (Split e.Name '/') ++ "/".toList ++ buildOf (Split e.Name '/')) ∧
      obj.Content =
        "\x7b\"state\":".toList ++ appendString (stateOf finished.Passed) ++
        ",\"namespace\":".toList ++ appendString (namespaceOf finished) ++
        ",\"completed_at\":".toList ++ FormatInt (time.Unix timestamp).Unix ++
        ",\"link\":".toList ++ appendString (linkOf e) ++ "\x7d".toList ∧
      (jsonPlain (namespaceOf finished) →
        obj.Content =
          "\x7b\"state\":".toList ++ appendString (stateOf finished.Passed) ++
          ",\"namespace\":\"".toList ++ namespaceOf finished ++
          "\",\"completed_at\":".toList ++ FormatInt (time.Unix timestamp).Unix ++
          ",\"link\":".toList ++ appendString (linkOf e) ++ "\x7d".toList) ∧
      obj.Metadata.lookup "namespace".toList = some (namespaceOf finished) := by
  refine ⟨namespaceOf_string finished, namespaceOf_absent finished, namespaceOf_other finished,
    indexPathOf (namespaceOf finished) (jobOf (Split e.Name '/')) (buildOf (Split e.Name '/')),
    indexObjectOf e finished timestamp, ?_, rfl, ?_, rfl, ?_, ?_⟩
  · rw [IndexJobsByNamespace_of_reaches h, writeStage_ops]
  · intro hk hj hb
    exact indexPathOf_plain _ _ _ hk hj hb
  · intro hn
    simp only [indexObjectOf, Marshal, jobResultOf, appendString_plain _ hn]
    simp
  · simp [indexObjectOf, List.lookup]

/-- C10, witness: `team-a` resolves to `team-a`, a record without the key and a
record with the number 42 to `unknown`, and the object written for `team-a`
has it in its key, payload and metadata. -/
theorem namespace_resolution_witness :
    namespaceOf teamA = "team-a".toList ∧
    namespaceOf noNamespace = "unknown".toList ∧
    namespaceOf numberNamespace = "unknown".toList ∧
    ∃ key obj,
      (IndexJobsByNamespace (envOf exContent teamA) (storeOf exName exContent) exEvent).ops =
        [Op.read "b".toList exName, Op.write "b".toList key obj] ∧
      key = "index/job-namespace/team-a/myjob/17".toList ∧
      obj.Content =
        "\x7b\"state\":\"failed\",\"namespace\":\"team-a\",\"completed_at\":1700000000,\"link\":\"gs://b/logs/myjob/17\"\x7d".toList ∧
      obj.Metadata.lookup "namespace".toList = some "team-a".toList := by
  have hteam := namespace_resolution (envOf exContent teamA) (storeOf exName exContent) exEvent
    teamA 1700000000 (exReaches teamA rfl (storeOf exName exContent) (by decide))
  have hnone := namespace_resolution (envOf exContent noNamespace) (storeOf exName exContent)
    exEvent noNamespace 1700000000 (exReaches noNamespace rfl (storeOf exName exContent)
      (by decide))
  have hnum := namespace_resolution (envOf exContent numberNamespace)
    (storeOf exName exContent) exEvent numberNamespace 1700000000
    (exReaches numberNamespace rfl (storeOf exName exContent) (by decide))
  obtain ⟨key, obj, hops, _, hkey, _, hcontent, hmeta⟩ := hteam.2.2.2
  refine ⟨hteam.1 "team-a".toList (by decide), hnone.2.1 (by decide),
    hnum.2.2.1 "42".toList (by decide), key, obj, hops, ?_, ?_, ?_⟩
  · rw [hkey (by decide) (by decide) (by decide)]
    decide
  · rw [hcontent (by decide)]
    decide
  · rw [hmeta]
    decide

end Indexer
